import Mathlib

/-
Verification development for an asynchronous HTTP-fetch runtime
(libcurl-multi scheduler with callback completion plus a coroutine
task/awaiter bridge). The definitions below are a shallow embedding
of the C++ sources:
  - src/02_libcurl_callbacks_multi/main.cc     (scheduler + callback API)
  - src/0x_cpp_coro_await_curl_crash/main.cc   (same scheduler + Co_Task + Co_CurlAsync)
  - src/0x_cpp_coro_task/main.cc, src/0x_cpp_coro_basic_await/main.cc (Co_Task)
Pointers (CURL*, user_data) become natural-number identities, byte
buffers become character lists, the external transfer engine (libcurl)
becomes an explicit oracle that supplies body chunks, final status codes
and multi-queue messages, and each `assert` (NDEBUG is #undef-ed in
every translation unit, so all asserts are active) becomes an
`Except.error` carrying the asserted text.
-/

namespace AsyncApi

/-- Identity of one CURL* easy handle (engine-owned, non-null in every
reachable call, since `curl_easy_init` results are asserted non-null). -/
abbrev Handle := Nat

/-- Identity of one registered completion callback
(`std::function<void (CURL*)>`; `add_request` asserts it non-null, so
every stored callback is a valid identity). -/
abbrev CallbackId := Nat

/-- Kind of a `CURLMsg` read from `curl_multi_info_read`: either
`CURLMSG_DONE` or anything else (skipped by `tick` via `continue`). -/
inductive CurlMsgKind
  | DONE
  | other
deriving DecidableEq

/-- One message from the multi handle's queue: `m->msg` and `m->easy_handle`. -/
structure CurlMsg where
  kind : CurlMsgKind
  easy_handle : Handle
deriving DecidableEq

/-- State of `CURL_AsyncScheduler`:
`multi` is the set of easy handles currently attached to `_multi_curl`
(order of attachment retained), `callbacks` is `_curl_to_callback`,
an association list keyed by easy handle. -/
structure SchedulerState where
  multi : List Handle
  callbacks : List (Handle × CallbackId)
deriving DecidableEq

/-- Keys of `_curl_to_callback`: the handles with a pending completion. -/
def keys (s : SchedulerState) : List Handle :=
  s.callbacks.map Prod.fst

/-- Embeds `_curl_to_callback.find(curl_easy)`. -/
def lookupCb (h : Handle) : List (Handle × CallbackId) → Option CallbackId
  | [] => none
  | p :: rest => if p.1 = h then some p.2 else lookupCb h rest

/-- Embeds `_curl_to_callback.erase(it)`: removes the entry for `h`
(keys are unique in every reachable state, see `add_request`). -/
def eraseCb (h : Handle) : List (Handle × CallbackId) → List (Handle × CallbackId)
  | [] => []
  | p :: rest => if p.1 = h then eraseCb h rest else p :: eraseCb h rest

/-- Embeds `curl_multi_remove_handle(_multi_curl, curl_easy)`: detaches
`h` from the multiplexer. -/
def removeHandle (h : Handle) : List Handle → List Handle
  | [] => []
  | x :: rest => if x = h then removeHandle h rest else x :: removeHandle h rest

/-- Embeds `CURL_AsyncScheduler::add_request`:
asserts the handle is not already registered
(`assert(!_curl_to_callback.contains(curl_easy))`), attaches it to the
multiplexer (`curl_multi_add_handle`) and records the callback
(`_curl_to_callback[curl_easy] = std::move(on_finish)`). The
`assert(on_finish)` / `assert(curl_easy)` null checks have no
counterpart because the embedding's identities are always valid. -/
def add_request (s : SchedulerState) (h : Handle) (cb : CallbackId) :
    Except String SchedulerState :=
  if (lookupCb h s.callbacks).isSome then
    .error "assert failed: !_curl_to_callback.contains(curl_easy)"
  else
    .ok { multi := h :: s.multi, callbacks := (h, cb) :: s.callbacks }

/-- Embeds the message loop of `CURL_AsyncScheduler::tick`
(the `while (CURLMsg* m = curl_multi_info_read(...))` loop): the engine's
queue is the explicit list `msgs`. Non-DONE messages are skipped
(`continue`). For a DONE message the handle is detached from the
multiplexer, looked up in `_curl_to_callback`
(`assert(it != _curl_to_callback.end())` on failure), its entry erased,
and its callback invoked before the next message is read; each
invocation is recorded as a `(handle, callback)` event in the returned
list, in invocation order. -/
def processMsgs : SchedulerState → List CurlMsg →
    Except String (SchedulerState × List (Handle × CallbackId))
  | s, [] => .ok (s, [])
  | s, m :: rest =>
    match m.kind with
    | .other => processMsgs s rest
    | .DONE =>
      let h := m.easy_handle
      let s1 : SchedulerState := { s with multi := removeHandle h s.multi }
      match lookupCb h s1.callbacks with
      | none => .error "assert failed: it != _curl_to_callback.end()"
      | some cb =>
        let s2 : SchedulerState := { s1 with callbacks := eraseCb h s1.callbacks }
        match processMsgs s2 rest with
        | .error e => .error e
        | .ok (s3, evs) => .ok (s3, (h, cb) :: evs)

/-- Embeds one `CURL_AsyncScheduler::tick()` call: `curl_multi_perform`
is the engine advancing (modelled as producing `msgs` in the queue),
then the message loop delivers completions synchronously; the events in
the result are the callback invocations performed before this `tick`
returns. -/
def tick (s : SchedulerState) (msgs : List CurlMsg) :
    Except String (SchedulerState × List (Handle × CallbackId)) :=
  processMsgs s msgs

/-- Driving `tick()` in a loop, one engine message queue per tick
(the caller's `while (...) CURL_async_tick(curl_async);` loop). -/
def driveTicks : SchedulerState → List (List CurlMsg) →
    Except String (SchedulerState × List (Handle × CallbackId))
  | s, [] => .ok (s, [])
  | s, msgs :: rest =>
    match tick s msgs with
    | .error e => .error e
    | .ok (s1, evs1) =>
      match driveTicks s1 rest with
      | .error e => .error e
      | .ok (s2, evs2) => .ok (s2, evs1 ++ evs2)

/-- Handles of the DONE messages in a queue, in queue order. -/
def doneHandles : List CurlMsg → List Handle
  | [] => []
  | m :: rest =>
    match m.kind with
    | .DONE => m.easy_handle :: doneHandles rest
    | .other => doneHandles rest

/-- The callback registered for `h` in `s` (default identity 0 when
absent; only used where presence is established). -/
def cbOf (s : SchedulerState) (h : Handle) : CallbackId :=
  (lookupCb h s.callbacks).getD 0

/-- Remove every handle in `ds` from an attachment list. -/
def removeAll (ds : List Handle) : List Handle → List Handle
  | [] => []
  | x :: rest => if x ∈ ds then removeAll ds rest else x :: removeAll ds rest

/-- Erase every entry whose key is in `ds` from the callback map. -/
def dropKeys (ds : List Handle) : List (Handle × CallbackId) → List (Handle × CallbackId)
  | [] => []
  | p :: rest => if p.1 ∈ ds then dropKeys ds rest else p :: dropKeys ds rest

/-- The spec's §3 invariant: a handle is attached to the multiplexer iff
it is present in `_curl_to_callback`. -/
def SchedInv (s : SchedulerState) : Prop :=
  ∀ h, h ∈ s.multi ↔ h ∈ keys s

/-- A resource owned by the transfer engine. -/
inductive EngineResource
  | multiplexer
  | globalEngine
  | easyHandle (h : Handle)
deriving DecidableEq

/-- Embeds `CURL_AsyncScheduler::~CURL_AsyncScheduler`: it calls
`curl_multi_cleanup(_multi_curl)` (asserting `CURLM_OK`, which the
engine returns here) and `curl_global_cleanup()`, releasing the
multiplexer and the process-wide engine state. The destructor body
contains no inspection of `_curl_to_callback`, so the result does not
depend on the scheduler state, and still-registered easy handles are
not among the released resources. -/
def scheduler_dtor (_s : SchedulerState) : Except String (List EngineResource) :=
  .ok [.multiplexer, .globalEngine]

/-! Data sink and the `CURL_async_get` completion handler. -/

/-- One invocation of the engine's data sink: the chunk pointed to by
`ptr` together with the `size` and `nmemb` arguments. -/
structure WriteChunk where
  data : List Char
  size : Nat
  nmemb : Nat

/-- Embeds `CURL_OnWriteCallback(ptr, size, nmemb, data)`: appends
`size * nmemb` bytes starting at `ptr` to the response accumulator and
returns the number of bytes consumed (`size * nmemb`, so the engine
never aborts the transfer for a short write). -/
def CURL_OnWriteCallback (ptr : List Char) (size nmemb : Nat) (response : List Char) :
    List Char × Nat :=
  (response ++ ptr.take (size * nmemb), size * nmemb)

/-- The engine feeding a sequence of body chunks through
`CURL_OnWriteCallback` into the transfer's response accumulator. -/
def runSink (response : List Char) : List WriteChunk → List Char
  | [] => response
  | c :: rest => runSink (CURL_OnWriteCallback c.data c.size c.nmemb response).1 rest

/-- Observable step performed by the completion lambda registered by
`CURL_async_get`. -/
inductive GetEvent
  | readStatus (code : Int)
  | releaseTransfer
  | releaseBuffer
  | invokeOnComplete (data : List Char)
deriving DecidableEq

/-- True exactly on an `invokeOnComplete` event. -/
def isInvoke : GetEvent → Bool
  | .invokeOnComplete _ => true
  | _ => false

/-- Embeds the completion lambda inside `CURL_async_get` (the
`on_finish` handed to `add_request`), as the ordered event trace it
produces together with the outcome of its asserts:
reads `CURLINFO_RESPONSE_CODE` (`readStatus`), asserts
`response_code == 200L` (any other status is a fatal assert: no retry,
no partial delivery), then `curl_easy_cleanup` (`releaseTransfer`),
`delete state` after moving the accumulated data out (`releaseBuffer`),
and finally `callback(user_data, std::move(data))`
(`invokeOnComplete` with the full buffer contents). -/
def CURL_get_completion (code : Int) (buffer : List Char) :
    List GetEvent × Except String Unit :=
  if code = 200 then
    ([.readStatus code, .releaseTransfer, .releaseBuffer, .invokeOnComplete buffer],
     .ok ())
  else
    ([.readStatus code], .error "assert failed: response_code == 200L")

/-! The mocked transfer engine and the two delivery paths
(plain callback vs. coroutine await). -/

/-- A mocked `TransferEngine` backend: for each url, the body chunks it
feeds to the data sink and the final status code of the transfer. -/
structure MockEngine where
  chunks : String → List WriteChunk
  statusOf : String → Int

/-- Embeds `CURL_async_get(curl_async, url, user_data, callback)` run to
completion against a mocked engine: a fresh easy handle is configured
with the url and redirect-following, a fresh empty `std::string`
accumulator is attached via `CURL_OnWriteCallback`, the engine fills it
chunk by chunk, and when the transfer finishes the completion lambda
runs (`CURL_get_completion`); on success the user callback is applied
to the user state and the accumulated buffer. The user callback is a
pure state transformer standing for `callback(user_data, response)`. -/
def CURL_async_get_run {σ : Type} (eng : MockEngine) (url : String)
    (user_data : σ) (callback : σ → List Char → σ) :
    Except String (σ × List GetEvent) :=
  let buffer := runSink [] (eng.chunks url)
  match CURL_get_completion (eng.statusOf url) buffer with
  | (_, .error e) => .error e
  | (evs, .ok ()) => .ok (callback user_data buffer, evs)

/-- The `State` owned by `main()` in 02_libcurl_callbacks_multi. -/
structure MainState where
  response : List Char
  done : Bool
deriving DecidableEq

/-- The callback `main()` registers with `CURL_async_get`: stores the
response and sets `done`. -/
def main_on_complete (_st : MainState) (response : List Char) : MainState :=
  { response := response, done := true }

/-- The plain-callback path: what a directly-registered `CURL_async_get`
delivers to the state owned by `main` for `url` under the mocked engine. -/
def getAsync_deliver (eng : MockEngine) (url : String) : Except String MainState :=
  match CURL_async_get_run eng url { response := [], done := false } main_on_complete with
  | .error e => .error e
  | .ok (st, _) => .ok st

/-! Co_Task: the coroutine task (identical in 0x_cpp_coro_task,
0x_cpp_coro_basic_await and 0x_cpp_coro_await_curl_crash). A coroutine
frame is modelled as the body's statements grouped into segments
separated by its suspension points, plus the number of segments already
executed; observable body statements are numbered. -/

/-- A coroutine frame (`std::coroutine_handle`): the body's statement
segments (segment k runs during the k-th `resume()`), and `pos`, the
number of segments already run. With `final_suspend` returning
`std::suspend_always`, `done()` holds exactly when every segment has
run, i.e. `segments.length ≤ pos`. -/
structure CoHandle where
  segments : List (List Nat)
  pos : Nat
deriving DecidableEq

/-- Embeds `std::coroutine_handle::done()`. -/
def CoHandle.done (h : CoHandle) : Bool :=
  h.segments.length ≤ h.pos

/-- Embeds `Co_Task`: owns an optional coroutine frame (`_coro`); a
moved-from task holds none (`std::exchange(rhs._coro, {})`). -/
structure Co_Task where
  coro : Option CoHandle
deriving DecidableEq

/-- The kind of awaitable returned by an initial/final suspend point. -/
inductive SuspendKind
  | always
  | never
deriving DecidableEq

/-- `Co_Task::promise_type::initial_suspend` returns
`std::suspend_always`. -/
def Co_Task_initial_suspend : SuspendKind :=
  .always

/-- The C++ coroutine creation protocol for a body with the given
segments: allocate the frame, `get_return_object`, then evaluate
`initial_suspend()`; with `suspend_always` the task is handed back
suspended before any body statement (no events emitted), with
`suspend_never` the first segment would run immediately. The second
component is the list of body statements executed during creation. -/
def coro_protocol_create (initial : SuspendKind) (segs : List (List Nat)) :
    Co_Task × List Nat :=
  match initial with
  | .always => ({ coro := some { segments := segs, pos := 0 } }, [])
  | .never => ({ coro := some { segments := segs, pos := 1 } }, segs.getD 0 [])

/-- Creating a `Co_Task` coroutine (e.g. calling `coro_main`): uses the
promise's actual `initial_suspend`. -/
def coro_create (segs : List (List Nat)) : Co_Task × List Nat :=
  coro_protocol_create Co_Task_initial_suspend segs

/-- Embeds `Co_Task::resume()`: `assert(_coro)` and
`assert(!_coro.done())` (both always active since NDEBUG is #undef-ed),
then `_coro.resume()` runs the body up to the next suspension point or
the end; the executed segment's statements are returned as events. -/
def Co_Task.resume (t : Co_Task) : Except String (Co_Task × List Nat) :=
  match t.coro with
  | none => .error "assert failed: _coro"
  | some h =>
    if h.done then .error "assert failed: !_coro.done()"
    else .ok ({ coro := some { h with pos := h.pos + 1 } }, h.segments.getD h.pos [])

/-- Embeds `Co_Task::is_in_progress()`: `assert(_coro)`, then
`!_coro.done()`. -/
def Co_Task.is_in_progress (t : Co_Task) : Except String Bool :=
  match t.coro with
  | none => .error "assert failed: _coro"
  | some h => .ok (!h.done)

/-- `resume()` called `n` times in sequence, accumulating the body
statements executed. -/
def resumeN : Co_Task → Nat → Except String (Co_Task × List Nat)
  | t, 0 => .ok (t, [])
  | t, n + 1 =>
    match t.resume with
    | .error e => .error e
    | .ok (t1, evs1) =>
      match resumeN t1 n with
      | .error e => .error e
      | .ok (t2, evs2) => .ok (t2, evs1 ++ evs2)

/-- Embeds the move constructor of `Co_Task`, whose initializer is
`_coro` set to `std::exchange(rhs._coro, empty-handle)`:
returns (new task, source after the move). -/
def Co_Task.moveCtor (t : Co_Task) : Co_Task × Co_Task :=
  ({ coro := t.coro }, { coro := none })

/-- Observable effect of running `~Co_Task()`. -/
structure DtorResult where
  destroyedFrame : Bool
  executed : List Nat
deriving DecidableEq

/-- Embeds `~Co_Task()`: `if (_coro) _coro.destroy();` — the frame is
destroyed exactly when the handle is non-empty, and `destroy()` frees
the frame without running any remaining body statement. -/
def Co_Task.dtor (t : Co_Task) : DtorResult :=
  match t.coro with
  | none => { destroyedFrame := false, executed := [] }
  | some _ => { destroyedFrame := true, executed := [] }

/-! Co_CurlAsync: the awaiter bridging one CURL_async_get completion to
one task resumption (0x_cpp_coro_await_curl_crash). -/

/-- Embeds `Co_CurlAsync`: the awaiter's request url (`_url`) and result
slot (`_response`). The `_curl_async` scheduler pointer is the mocked
engine passed where the awaiter is run; `_coro` is the task threaded
through `await_cycle`. -/
structure Co_CurlAsync where
  url : String
  response : List Char
deriving DecidableEq

/-- Embeds `Co_CurlAsync::await_ready()`: always false, forcing
suspension. -/
def Co_CurlAsync.await_ready (_a : Co_CurlAsync) : Bool :=
  false

/-- The completion lambda `await_suspend` passes to `CURL_async_get`:
stores the response into the awaiter (`self._response =
std::move(response)`); the subsequent `self._coro.resume()` is
performed by `await_cycle`. -/
def awaiter_on_complete (self : Co_CurlAsync) (response : List Char) : Co_CurlAsync :=
  { self with response := response }

/-- Embeds `Co_CurlAsync::await_resume()`: yields the stored response. -/
def Co_CurlAsync.await_resume (a : Co_CurlAsync) : List Char :=
  a.response

/-- Embeds `CURL_await_get(curl_async, url)`: builds the awaiter with
the url and an empty result slot. -/
def CURL_await_get (url : String) : Co_CurlAsync :=
  { url := url, response := [] }

/-- One full `co_await CURL_await_get(curl_async, url)` cycle inside a
task body, driven to completion under the mocked engine: `await_ready`
is consulted (false, so the task suspends), `await_suspend` captures
the task and starts `CURL_async_get` whose completion stores the result
into the awaiter and resumes the captured task, and `await_resume`
yields the stored bytes. Returns the bytes the `co_await` expression
evaluates to and the resumed task. -/
def await_cycle (eng : MockEngine) (url : String) (task : Co_Task) :
    Except String (List Char × Co_Task) :=
  let a := CURL_await_get url
  if a.await_ready then .ok (a.await_resume, task)
  else
    match CURL_async_get_run eng url a awaiter_on_complete with
    | .error e => .error e
    | .ok (a1, _) =>
      match task.resume with
      | .error e => .error e
      | .ok (task1, _) => .ok (a1.await_resume, task1)

/-! Helper lemmas about the association list and handle-set operations. -/

theorem exists_lookupCb_of_mem {h : Handle} :
    ∀ {l : List (Handle × CallbackId)}, h ∈ l.map Prod.fst →
      ∃ c, lookupCb h l = some c := by
  intro l
  induction l with
  | nil => intro hm; simp at hm
  | cons p rest ih =>
    intro hm
    by_cases hph : p.1 = h
    · exact ⟨p.2, by simp [lookupCb, hph]⟩
    · have hm1 : h ∈ rest.map Prod.fst := by
        simp only [List.map_cons, List.mem_cons] at hm
        rcases hm with heq | hmem
        · exact absurd heq.symm hph
        · exact hmem
      rcases ih hm1 with ⟨c, hc⟩
      exact ⟨c, by simp [lookupCb, hph, hc]⟩

theorem mem_of_lookupCb_eq_some {h : Handle} {c : CallbackId} :
    ∀ {l : List (Handle × CallbackId)}, lookupCb h l = some c →
      h ∈ l.map Prod.fst := by
  intro l
  induction l with
  | nil => intro hl; simp [lookupCb] at hl
  | cons p rest ih =>
    intro hl
    by_cases hph : p.1 = h
    · simp [hph]
    · simp only [lookupCb, hph, if_false] at hl
      simp only [List.map_cons, List.mem_cons]
      exact Or.inr (ih hl)

theorem removeHandle_eq_filter (h : Handle) :
    ∀ (l : List Handle), removeHandle h l = l.filter (fun x => x ≠ h) := by
  intro l
  induction l with
  | nil => rfl
  | cons y rest ih =>
    by_cases hy : y = h <;> simp [removeHandle, List.filter_cons, hy, ih]

theorem eraseCb_eq_filter (h : Handle) :
    ∀ (l : List (Handle × CallbackId)),
      eraseCb h l = l.filter (fun p => p.1 ≠ h) := by
  intro l
  induction l with
  | nil => rfl
  | cons p rest ih =>
    by_cases hp : p.1 = h <;> simp [eraseCb, List.filter_cons, hp, ih]

theorem mem_removeHandle {x h : Handle} {l : List Handle} :
    x ∈ removeHandle h l ↔ x ∈ l ∧ x ≠ h := by
  simp [removeHandle_eq_filter, List.mem_filter]

theorem nodup_removeHandle {h : Handle} {l : List Handle} (hl : l.Nodup) :
    (removeHandle h l).Nodup := by
  rw [removeHandle_eq_filter]
  exact hl.filter _

theorem map_fst_eraseCb (h : Handle) :
    ∀ (l : List (Handle × CallbackId)),
      (eraseCb h l).map Prod.fst = removeHandle h (l.map Prod.fst) := by
  intro l
  induction l with
  | nil => rfl
  | cons p rest ih =>
    by_cases hp : p.1 = h <;> simp [eraseCb, removeHandle, hp, ih]

theorem lookupCb_eraseCb_ne {h h' : Handle} (hne : h' ≠ h) :
    ∀ (l : List (Handle × CallbackId)),
      lookupCb h' (eraseCb h l) = lookupCb h' l := by
  intro l
  induction l with
  | nil => rfl
  | cons p rest ih =>
    by_cases hp : p.1 = h
    · have hph' : p.1 ≠ h' := by
        intro hc
        exact hne (hc.symm.trans hp)
      simp [eraseCb, lookupCb, hp, hph', Ne.symm hne, ih]
    · by_cases hp' : p.1 = h'
      · simp [eraseCb, lookupCb, hp, hp', hne]
      · simp [eraseCb, lookupCb, hp, hp', ih]

theorem removeAll_nil_ds : ∀ (l : List Handle), removeAll [] l = l := by
  intro l
  induction l with
  | nil => rfl
  | cons x rest ih => simp [removeAll, ih]

theorem dropKeys_nil_ds : ∀ (l : List (Handle × CallbackId)), dropKeys [] l = l := by
  intro l
  induction l with
  | nil => rfl
  | cons p rest ih => simp [dropKeys, ih]

theorem removeAll_cons_ds (h : Handle) (ds : List Handle) :
    ∀ (l : List Handle), removeAll (h :: ds) l = removeAll ds (removeHandle h l) := by
  intro l
  induction l with
  | nil => rfl
  | cons x rest ih =>
    by_cases hxh : x = h <;> by_cases hxds : x ∈ ds <;>
      simp [removeAll, removeHandle, hxh, hxds, ih, List.mem_cons]

theorem dropKeys_cons_ds (h : Handle) (ds : List Handle) :
    ∀ (l : List (Handle × CallbackId)),
      dropKeys (h :: ds) l = dropKeys ds (eraseCb h l) := by
  intro l
  induction l with
  | nil => rfl
  | cons p rest ih =>
    by_cases hph : p.1 = h <;> by_cases hpds : p.1 ∈ ds <;>
      simp [dropKeys, eraseCb, hph, hpds, ih, List.mem_cons]

theorem removeAll_eq_nil {ds : List Handle} :
    ∀ {l : List Handle}, (∀ x ∈ l, x ∈ ds) → removeAll ds l = [] := by
  intro l
  induction l with
  | nil => intro _; rfl
  | cons x rest ih =>
    intro hall
    have hx : x ∈ ds := hall x (List.mem_cons_self x rest)
    simp only [removeAll, if_pos hx]
    exact ih fun y hy => hall y (List.mem_cons_of_mem x hy)

theorem dropKeys_eq_nil {ds : List Handle} :
    ∀ {l : List (Handle × CallbackId)}, (∀ p ∈ l, p.1 ∈ ds) → dropKeys ds l = [] := by
  intro l
  induction l with
  | nil => intro _; rfl
  | cons p rest ih =>
    intro hall
    have hp : p.1 ∈ ds := hall p (List.mem_cons_self p rest)
    simp only [dropKeys, if_pos hp]
    exact ih fun q hq => hall q (List.mem_cons_of_mem p hq)

theorem map_eq_on {α β : Type} {f g : α → β} :
    ∀ {l : List α}, (∀ a ∈ l, f a = g a) → l.map f = l.map g := by
  intro l
  induction l with
  | nil => intro _; rfl
  | cons a rest ih =>
    intro hall
    simp only [List.map_cons]
    rw [hall a (List.mem_cons_self a rest), ih fun b hb => hall b (List.mem_cons_of_mem a hb)]

theorem assoc_eq_keys_map :
    ∀ {l : List (Handle × CallbackId)}, (l.map Prod.fst).Nodup →
      (l.map Prod.fst).map (fun h => (h, (lookupCb h l).getD 0)) = l := by
  intro l
  induction l with
  | nil => intro _; rfl
  | cons p rest ih =>
    intro hnd
    rw [List.map_cons] at hnd
    rcases List.nodup_cons.mp hnd with ⟨hp, hrest⟩
    have hhead : lookupCb p.1 (p :: rest) = some p.2 := by simp [lookupCb]
    have hcongr : ∀ h ∈ rest.map Prod.fst,
        (fun h => (h, (lookupCb h (p :: rest)).getD 0)) h
          = (fun h => (h, (lookupCb h rest).getD 0)) h := by
      intro h hm
      have hph : p.1 ≠ h := fun heq => hp (by rw [heq]; exact hm)
      simp [lookupCb, hph]
    simp only [List.map_cons, hhead, Option.getD_some]
    rw [map_eq_on hcongr, ih hrest]

theorem lookupCb_eq_some_of_mem_pair :
    ∀ {l : List (Handle × CallbackId)}, (l.map Prod.fst).Nodup →
      ∀ {h : Handle} {c : CallbackId}, (h, c) ∈ l → lookupCb h l = some c := by
  intro l
  induction l with
  | nil => intro _ h c hm; simp at hm
  | cons p rest ih =>
    intro hnd h c hm
    rw [List.map_cons] at hnd
    rcases List.nodup_cons.mp hnd with ⟨hp, hrest⟩
    rcases List.mem_cons.mp hm with heq | hm1
    · rw [← heq]
      simp [lookupCb]
    · have hph : p.1 ≠ h := fun heq2 =>
        hp (by rw [heq2]; exact List.mem_map_of_mem Prod.fst hm1)
      simp only [lookupCb, hph, if_false]
      exact ih hrest hm1

/-! Unfolding equations and the run characterization of the tick loop. -/

theorem processMsgs_nil (s : SchedulerState) : processMsgs s [] = .ok (s, []) := rfl

theorem processMsgs_cons_other (s : SchedulerState) (x : Handle) (rest : List CurlMsg) :
    processMsgs s ({ kind := .other, easy_handle := x } :: rest) = processMsgs s rest := rfl

theorem processMsgs_cons_done_missing (s : SchedulerState) (x : Handle)
    (rest : List CurlMsg) (hcb : lookupCb x s.callbacks = none) :
    processMsgs s ({ kind := .DONE, easy_handle := x } :: rest) =
      .error "assert failed: it != _curl_to_callback.end()" := by
  simp only [processMsgs, hcb]

theorem processMsgs_cons_done_found (s : SchedulerState) (x : Handle)
    (rest : List CurlMsg) {cb : CallbackId} (hcb : lookupCb x s.callbacks = some cb) :
    processMsgs s ({ kind := .DONE, easy_handle := x } :: rest) =
      match processMsgs { multi := removeHandle x s.multi,
                          callbacks := eraseCb x s.callbacks } rest with
      | .error e => .error e
      | .ok (s3, evs) => .ok (s3, (x, cb) :: evs) := by
  simp only [processMsgs, hcb]

theorem doneHandles_cons_other (x : Handle) (rest : List CurlMsg) :
    doneHandles ({ kind := .other, easy_handle := x } :: rest) = doneHandles rest := rfl

theorem doneHandles_cons_done (x : Handle) (rest : List CurlMsg) :
    doneHandles ({ kind := .DONE, easy_handle := x } :: rest)
      = x :: doneHandles rest := rfl

theorem processMsgs_ok :
    ∀ (msgs : List CurlMsg) (s : SchedulerState),
      (keys s).Nodup →
      (doneHandles msgs).Nodup →
      (∀ h, h ∈ doneHandles msgs → h ∈ keys s) →
      processMsgs s msgs = .ok
        ({ multi := removeAll (doneHandles msgs) s.multi,
           callbacks := dropKeys (doneHandles msgs) s.callbacks },
         (doneHandles msgs).map (fun h => (h, cbOf s h))) := by
  intro msgs
  induction msgs with
  | nil =>
    intro s _ _ _
    simp [processMsgs_nil, doneHandles, removeAll_nil_ds, dropKeys_nil_ds]
  | cons m rest ih =>
    intro s hnd hdnd hsub
    obtain ⟨k, x⟩ := m
    cases k with
    | other =>
      rw [doneHandles_cons_other] at hdnd hsub ⊢
      rw [processMsgs_cons_other]
      exact ih s hnd hdnd hsub
    | DONE =>
      rw [doneHandles_cons_done] at hdnd hsub ⊢
      rcases List.nodup_cons.mp hdnd with ⟨hxnot, hdnd2⟩
      have hxmem : x ∈ keys s := hsub x (List.mem_cons_self x _)
      rcases exists_lookupCb_of_mem hxmem with ⟨cb, hcb⟩
      have hkeys2 : keys { multi := removeHandle x s.multi,
                           callbacks := eraseCb x s.callbacks }
          = removeHandle x (keys s) := by
        simp [keys, map_fst_eraseCb]
      have hnd2 : (keys { multi := removeHandle x s.multi,
                          callbacks := eraseCb x s.callbacks }).Nodup := by
        rw [hkeys2]; exact nodup_removeHandle hnd
      have hsub2 : ∀ h, h ∈ doneHandles rest →
          h ∈ keys { multi := removeHandle x s.multi,
                     callbacks := eraseCb x s.callbacks } := by
        intro h hh
        rw [hkeys2]
        refine mem_removeHandle.mpr ⟨hsub h (List.mem_cons_of_mem _ hh), ?_⟩
        intro heq
        exact hxnot (heq ▸ hh)
      have hrec := ih _ hnd2 hdnd2 hsub2
      rw [processMsgs_cons_done_found s x rest hcb, hrec]
      have hevs : (doneHandles rest).map
            (fun h => (h, cbOf { multi := removeHandle x s.multi,
                                 callbacks := eraseCb x s.callbacks } h))
          = (doneHandles rest).map (fun h => (h, cbOf s h)) := by
        apply map_eq_on
        intro h hh
        have hne : h ≠ x := fun heq => hxnot (heq ▸ hh)
        simp [cbOf, lookupCb_eraseCb_ne hne]
      have hcbx : cbOf s x = cb := by simp [cbOf, hcb]
      simp only [removeAll_cons_ds, dropKeys_cons_ds, List.map_cons, hevs, hcbx]

theorem doneHandles_append :
    ∀ (a b : List CurlMsg), doneHandles (a ++ b) = doneHandles a ++ doneHandles b := by
  intro a b
  induction a with
  | nil => rfl
  | cons m rest ih =>
    obtain ⟨k, x⟩ := m
    cases k with
    | other =>
      rw [List.cons_append, doneHandles_cons_other, doneHandles_cons_other]
      exact ih
    | DONE =>
      rw [List.cons_append, doneHandles_cons_done, doneHandles_cons_done,
          List.cons_append, ih]

theorem removeAll_eq_filter (ds : List Handle) :
    ∀ (l : List Handle), removeAll ds l = l.filter (fun x => x ∉ ds) := by
  intro l
  induction l with
  | nil => rfl
  | cons x rest ih =>
    by_cases hx : x ∈ ds <;> simp [removeAll, List.filter_cons, hx, ih]

theorem dropKeys_eq_filter (ds : List Handle) :
    ∀ (l : List (Handle × CallbackId)),
      dropKeys ds l = l.filter (fun p => p.1 ∉ ds) := by
  intro l
  induction l with
  | nil => rfl
  | cons p rest ih =>
    by_cases hp : p.1 ∈ ds <;> simp [dropKeys, List.filter_cons, hp, ih]

theorem mem_removeAll {x : Handle} {ds l : List Handle} :
    x ∈ removeAll ds l ↔ x ∈ l ∧ x ∉ ds := by
  simp [removeAll_eq_filter, List.mem_filter]

theorem nodup_removeAll {ds l : List Handle} (hl : l.Nodup) : (removeAll ds l).Nodup := by
  rw [removeAll_eq_filter]
  exact hl.filter _

theorem map_fst_dropKeys (ds : List Handle) :
    ∀ (l : List (Handle × CallbackId)),
      (dropKeys ds l).map Prod.fst = removeAll ds (l.map Prod.fst) := by
  intro l
  induction l with
  | nil => rfl
  | cons p rest ih =>
    by_cases hp : p.1 ∈ ds <;> simp [dropKeys, removeAll, hp, ih]

theorem removeAll_append_ds :
    ∀ (d1 d2 : List Handle) (l : List Handle),
      removeAll (d1 ++ d2) l = removeAll d2 (removeAll d1 l) := by
  intro d1
  induction d1 with
  | nil =>
    intro d2 l
    rw [List.nil_append, removeAll_nil_ds]
  | cons h d1t ih =>
    intro d2 l
    rw [List.cons_append, removeAll_cons_ds, ih, removeAll_cons_ds]

theorem dropKeys_append_ds :
    ∀ (d1 d2 : List Handle) (l : List (Handle × CallbackId)),
      dropKeys (d1 ++ d2) l = dropKeys d2 (dropKeys d1 l) := by
  intro d1
  induction d1 with
  | nil =>
    intro d2 l
    rw [List.nil_append, dropKeys_nil_ds]
  | cons h d1t ih =>
    intro d2 l
    rw [List.cons_append, dropKeys_cons_ds, ih, dropKeys_cons_ds]

theorem lookupCb_dropKeys_not_mem {h : Handle} {ds : List Handle} (hh : h ∉ ds) :
    ∀ (l : List (Handle × CallbackId)),
      lookupCb h (dropKeys ds l) = lookupCb h l := by
  intro l
  induction l with
  | nil => rfl
  | cons p rest ih =>
    by_cases hp : p.1 ∈ ds
    · have hph : p.1 ≠ h := fun heq => hh (heq ▸ hp)
      simp [dropKeys, lookupCb, hp, hph, ih]
    · by_cases hph : p.1 = h
      · simp [dropKeys, lookupCb, hp, hph, hh]
      · simp [dropKeys, lookupCb, hp, hph, ih]

theorem driveTicks_cons (s : SchedulerState) (msgs : List CurlMsg)
    (rest : List (List CurlMsg)) :
    driveTicks s (msgs :: rest) =
      match tick s msgs with
      | .error e => .error e
      | .ok (s1, evs1) =>
        match driveTicks s1 rest with
        | .error e => .error e
        | .ok (s2, evs2) => .ok (s2, evs1 ++ evs2) := rfl

theorem driveTicks_run :
    ∀ (ticks : List (List CurlMsg)) (s : SchedulerState),
      (keys s).Nodup →
      (doneHandles ticks.flatten).Nodup →
      (∀ h, h ∈ doneHandles ticks.flatten → h ∈ keys s) →
      driveTicks s ticks = .ok
        ({ multi := removeAll (doneHandles ticks.flatten) s.multi,
           callbacks := dropKeys (doneHandles ticks.flatten) s.callbacks },
         (doneHandles ticks.flatten).map (fun h => (h, cbOf s h))) := by
  intro ticks
  induction ticks with
  | nil =>
    intro s _ _ _
    simp [driveTicks, doneHandles, removeAll_nil_ds, dropKeys_nil_ds]
  | cons msgs rest ih =>
    intro s hnd hdnd hsub
    have hflat : (msgs :: rest).flatten = msgs ++ rest.flatten := rfl
    rw [hflat, doneHandles_append] at hdnd hsub ⊢
    have hd1 : (doneHandles msgs).Nodup := hdnd.of_append_left
    have hd2 : (doneHandles rest.flatten).Nodup := hdnd.of_append_right
    have hdisj := List.disjoint_of_nodup_append hdnd
    have hsub1 : ∀ h, h ∈ doneHandles msgs → h ∈ keys s := fun h hh =>
      hsub h (List.mem_append.mpr (Or.inl hh))
    have htick : tick s msgs = .ok
        ({ multi := removeAll (doneHandles msgs) s.multi,
           callbacks := dropKeys (doneHandles msgs) s.callbacks },
         (doneHandles msgs).map (fun h => (h, cbOf s h))) :=
      processMsgs_ok msgs s hnd hd1 hsub1
    have hkeys1 : keys { multi := removeAll (doneHandles msgs) s.multi,
                         callbacks := dropKeys (doneHandles msgs) s.callbacks }
        = removeAll (doneHandles msgs) (keys s) := by
      simp [keys, map_fst_dropKeys]
    have hnd1 : (keys { multi := removeAll (doneHandles msgs) s.multi,
                        callbacks := dropKeys (doneHandles msgs) s.callbacks }).Nodup := by
      rw [hkeys1]
      exact nodup_removeAll hnd
    have hsub2 : ∀ h, h ∈ doneHandles rest.flatten →
        h ∈ keys { multi := removeAll (doneHandles msgs) s.multi,
                   callbacks := dropKeys (doneHandles msgs) s.callbacks } := by
      intro h hh
      rw [hkeys1]
      exact mem_removeAll.mpr
        ⟨hsub h (List.mem_append.mpr (Or.inr hh)), fun h1m => hdisj h1m hh⟩
    have h2 := ih { multi := removeAll (doneHandles msgs) s.multi,
                    callbacks := dropKeys (doneHandles msgs) s.callbacks } hnd1 hd2 hsub2
    have hevs : (doneHandles rest.flatten).map
          (fun h => (h, cbOf { multi := removeAll (doneHandles msgs) s.multi,
                               callbacks := dropKeys (doneHandles msgs) s.callbacks } h))
        = (doneHandles rest.flatten).map (fun h => (h, cbOf s h)) := by
      apply map_eq_on
      intro h hh
      have hnotin : h ∉ doneHandles msgs := fun h1m => hdisj h1m hh
      simp [cbOf, lookupCb_dropKeys_not_mem hnotin]
    rw [hevs] at h2
    rw [driveTicks_cons, removeAll_append_ds, dropKeys_append_ds, List.map_append]
    simp only [htick, h2]
theorem processMsgs_keys_subset :
    ∀ (msgs : List CurlMsg) (s s3 : SchedulerState) (evs : List (Handle × CallbackId)),
      processMsgs s msgs = .ok (s3, evs) → ∀ h, h ∈ keys s3 → h ∈ keys s := by
  intro msgs
  induction msgs with
  | nil =>
    intro s s3 evs hok h hm
    rw [processMsgs_nil] at hok
    simp only [Except.ok.injEq, Prod.mk.injEq] at hok
    rcases hok with ⟨rfl, rfl⟩
    exact hm
  | cons m rest ih =>
    intro s s3 evs hok h hm
    obtain ⟨k, x⟩ := m
    cases k with
    | other =>
      rw [processMsgs_cons_other] at hok
      exact ih s s3 evs hok h hm
    | DONE =>
      cases hcb : lookupCb x s.callbacks with
      | none =>
        rw [processMsgs_cons_done_missing s x rest hcb] at hok
        exact absurd hok (by simp)
      | some cb =>
        rw [processMsgs_cons_done_found s x rest hcb] at hok
        cases hrec : processMsgs { multi := removeHandle x s.multi,
                                   callbacks := eraseCb x s.callbacks } rest with
        | error e =>
          rw [hrec] at hok
          exact absurd hok (by simp)
        | ok r =>
          obtain ⟨s1, evs1⟩ := r
          rw [hrec] at hok
          simp only [Except.ok.injEq, Prod.mk.injEq] at hok
          rcases hok with ⟨rfl, rfl⟩
          have hmem2 := ih _ s1 evs1 hrec h hm
          have hmem3 : h ∈ removeHandle x (keys s) := by
            simpa [keys, map_fst_eraseCb] using hmem2
          exact (mem_removeHandle.mp hmem3).1

theorem processMsgs_inv_events :
    ∀ (msgs : List CurlMsg) (s s3 : SchedulerState) (evs : List (Handle × CallbackId)),
      SchedInv s → processMsgs s msgs = .ok (s3, evs) →
      SchedInv s3 ∧ (∀ h, (h ∈ keys s ∧ h ∉ keys s3) ↔ h ∈ evs.map Prod.fst) := by
  intro msgs
  induction msgs with
  | nil =>
    intro s s3 evs hinv hok
    rw [processMsgs_nil] at hok
    simp only [Except.ok.injEq, Prod.mk.injEq] at hok
    rcases hok with ⟨rfl, rfl⟩
    refine ⟨hinv, fun h => ?_⟩
    simp
  | cons m rest ih =>
    intro s s3 evs hinv hok
    obtain ⟨k, x⟩ := m
    cases k with
    | other =>
      rw [processMsgs_cons_other] at hok
      exact ih s s3 evs hinv hok
    | DONE =>
      cases hcb : lookupCb x s.callbacks with
      | none =>
        rw [processMsgs_cons_done_missing s x rest hcb] at hok
        exact absurd hok (by simp)
      | some cb =>
        rw [processMsgs_cons_done_found s x rest hcb] at hok
        cases hrec : processMsgs { multi := removeHandle x s.multi,
                                   callbacks := eraseCb x s.callbacks } rest with
        | error e =>
          rw [hrec] at hok
          exact absurd hok (by simp)
        | ok r =>
          obtain ⟨s1, evs1⟩ := r
          rw [hrec] at hok
          simp only [Except.ok.injEq, Prod.mk.injEq] at hok
          rcases hok with ⟨rfl, rfl⟩
          have hkeysmid : keys { multi := removeHandle x s.multi,
                                 callbacks := eraseCb x s.callbacks }
              = removeHandle x (keys s) := by
            simp [keys, map_fst_eraseCb]
          have hinv2 : SchedInv { multi := removeHandle x s.multi,
                                  callbacks := eraseCb x s.callbacks } := by
            intro h
            rw [hkeysmid]
            show h ∈ removeHandle x s.multi ↔ h ∈ removeHandle x (keys s)
            rw [mem_removeHandle, mem_removeHandle]
            exact and_congr_left fun _ => hinv h
          rcases ih _ s1 evs1 hinv2 hrec with ⟨hinv3, hiff⟩
          refine ⟨hinv3, fun h => ?_⟩
          by_cases hx : h = x
          · subst hx
            have hin : h ∈ keys s := mem_of_lookupCb_eq_some hcb
            have hnotmid : h ∉ keys { multi := removeHandle h s.multi,
                                      callbacks := eraseCb h s.callbacks } := by
              rw [hkeysmid]
              intro hmem
              exact (mem_removeHandle.mp hmem).2 rfl
            have hnot1 : h ∉ keys s1 := fun hmem =>
              hnotmid (processMsgs_keys_subset rest _ s1 evs1 hrec h hmem)
            simp [hin, hnot1]
          · have hmid : h ∈ keys { multi := removeHandle x s.multi,
                                   callbacks := eraseCb x s.callbacks }
                ↔ h ∈ keys s := by
              rw [hkeysmid, mem_removeHandle]
              exact ⟨fun hh => hh.1, fun hh => ⟨hh, hx⟩⟩
            have := hiff h
            rw [hmid] at this
            simpa [hx] using this

/-- C1: every transfer reaching a terminal state during the tick loop is
detached from the multiplexer, removed from the handle-to-callback map,
and has its registered callback invoked exactly once, synchronously,
within the tick that saw its DONE message (the events of each tick are
delivered before that tick returns and concatenated by `driveTicks`);
driving `tick()` until no transfers remain pending (the DONE messages
across all ticks covering the registered handles exactly once) delivers
exactly N completions, each to its own registered callback and never to
another transfer's callback, leaving multiplexer and map empty. -/
theorem tick_loop_delivers_each_completion_exactly_once
    (s : SchedulerState) (ticks : List (List CurlMsg))
    (hnd : (keys s).Nodup)
    (hmulti : s.multi = keys s)
    (hcover : (doneHandles ticks.flatten).Perm (keys s)) :
    ∃ evs, driveTicks s ticks = .ok ({ multi := [], callbacks := [] }, evs) ∧
      evs.Perm s.callbacks ∧
      evs.length = s.callbacks.length ∧
      (∀ h c, (h, c) ∈ evs → lookupCb h s.callbacks = some c) := by
  have hdnd : (doneHandles ticks.flatten).Nodup := hcover.nodup_iff.mpr hnd
  have hsub : ∀ h, h ∈ doneHandles ticks.flatten → h ∈ keys s := fun h hh =>
    hcover.mem_iff.mp hh
  have hrun := driveTicks_run ticks s hnd hdnd hsub
  have hmulti0 : removeAll (doneHandles ticks.flatten) s.multi = [] := by
    apply removeAll_eq_nil
    intro x hmx
    rw [hmulti] at hmx
    exact hcover.mem_iff.mpr hmx
  have hcb0 : dropKeys (doneHandles ticks.flatten) s.callbacks = [] := by
    apply dropKeys_eq_nil
    intro p hp
    exact hcover.mem_iff.mpr (List.mem_map_of_mem Prod.fst hp)
  have heq : (keys s).map (fun h => (h, cbOf s h)) = s.callbacks :=
    assoc_eq_keys_map hnd
  have hperm : ((doneHandles ticks.flatten).map (fun h => (h, cbOf s h))).Perm
      s.callbacks := heq ▸ hcover.map (fun h => (h, cbOf s h))
  refine ⟨(doneHandles ticks.flatten).map (fun h => (h, cbOf s h)), ?_, hperm,
    hperm.length_eq, ?_⟩
  · rw [hrun, hmulti0, hcb0]
  · intro h c hmem
    exact lookupCb_eq_some_of_mem_pair hnd (hperm.mem_iff.mp hmem)

/-- Witness for C1 at a concrete run: two transfers, completed across
two ticks in reverse registration order, with a non-DONE message in the
queue. -/
theorem tick_loop_delivers_each_completion_exactly_once_witness :
    ∃ evs,
      driveTicks { multi := [1, 2], callbacks := [(1, 10), (2, 20)] }
          [[{ kind := .other, easy_handle := 1 }, { kind := .DONE, easy_handle := 2 }],
           [{ kind := .DONE, easy_handle := 1 }]]
        = .ok ({ multi := [], callbacks := [] }, evs) ∧
      evs.Perm [(1, 10), (2, 20)] ∧
      evs.length = ([(1, 10), (2, 20)] : List (Handle × CallbackId)).length ∧
      (∀ h c, (h, c) ∈ evs → lookupCb h [(1, 10), (2, 20)] = some c) :=
  tick_loop_delivers_each_completion_exactly_once
    { multi := [1, 2], callbacks := [(1, 10), (2, 20)] }
    [[{ kind := .other, easy_handle := 1 }, { kind := .DONE, easy_handle := 2 }],
     [{ kind := .DONE, easy_handle := 1 }]]
    (by decide) (by decide) (by decide)
theorem add_request_inv {s : SchedulerState} {h : Handle} {cb : CallbackId}
    {s2 : SchedulerState} (hinv : SchedInv s) (hok : add_request s h cb = .ok s2) :
    SchedInv s2 := by
  unfold add_request at hok
  by_cases hc : (lookupCb h s.callbacks).isSome
  · rw [if_pos hc] at hok
    exact absurd hok (by simp)
  · rw [if_neg hc] at hok
    simp only [Except.ok.injEq] at hok
    rw [← hok]
    intro h2
    show h2 ∈ h :: s.multi ↔ h2 ∈ keys { multi := h :: s.multi,
                                         callbacks := (h, cb) :: s.callbacks }
    have hk : keys { multi := h :: s.multi, callbacks := (h, cb) :: s.callbacks }
        = h :: keys s := by simp [keys]
    rw [hk, List.mem_cons, List.mem_cons]
    exact or_congr_right (hinv h2)

/-- C2: at every observation point a handle is attached to the
multiplexer iff it has an entry in the handle-to-callback map:
`add_request` preserves the invariant, and so does every successful
tick message loop; moreover within one tick a handle loses its map
entry exactly when a callback-invocation event for it is delivered
(no entry removed without its callback firing, none fired with the
entry still present). -/
theorem attach_iff_registered_invariant :
    (∀ (s : SchedulerState) (h : Handle) (cb : CallbackId) (s2 : SchedulerState),
        SchedInv s → add_request s h cb = .ok s2 → SchedInv s2) ∧
    (∀ (s : SchedulerState) (msgs : List CurlMsg) (s3 : SchedulerState)
        (evs : List (Handle × CallbackId)),
        SchedInv s → processMsgs s msgs = .ok (s3, evs) →
          SchedInv s3 ∧ (∀ h, (h ∈ keys s ∧ h ∉ keys s3) ↔ h ∈ evs.map Prod.fst)) :=
  ⟨fun _s _h _cb _s2 hinv hok => add_request_inv hinv hok,
   fun s msgs s3 evs hinv hok => processMsgs_inv_events msgs s s3 evs hinv hok⟩

/-- Witness for C2: registering handle 1 on the empty scheduler
preserves the invariant, and a tick completing handle 1 preserves it
while removing exactly the key whose callback event fired. -/
theorem attach_iff_registered_invariant_witness :
    SchedInv { multi := [1], callbacks := [(1, 5)] } ∧
    (SchedInv { multi := [], callbacks := [] } ∧
      (∀ h, (h ∈ keys { multi := [1], callbacks := [(1, 5)] } ∧
             h ∉ keys { multi := [], callbacks := [] }) ↔
            h ∈ ([(1, 5)] : List (Handle × CallbackId)).map Prod.fst)) := by
  constructor
  · exact attach_iff_registered_invariant.1 { multi := [], callbacks := [] } 1 5
      { multi := [1], callbacks := [(1, 5)] } (fun h => by simp [keys]) rfl
  · exact attach_iff_registered_invariant.2 { multi := [1], callbacks := [(1, 5)] }
      [{ kind := .DONE, easy_handle := 1 }] { multi := [], callbacks := [] } [(1, 5)]
      (fun h => by simp [keys]) rfl

/-- C10: a tick message whose kind is not DONE is skipped by the
`continue` in the message loop: processing it leaves the scheduler
state (multiplexer attachment and handle-to-callback map) unchanged
and fires no callback. -/
theorem non_done_msg_is_noop (s : SchedulerState) (m : CurlMsg) (rest : List CurlMsg)
    (hk : m.kind ≠ CurlMsgKind.DONE) :
    processMsgs s (m :: rest) = processMsgs s rest ∧
    processMsgs s [m] = .ok (s, []) := by
  obtain ⟨k, x⟩ := m
  cases k with
  | DONE => exact absurd rfl hk
  | other =>
    exact ⟨processMsgs_cons_other s x rest,
      (processMsgs_cons_other s x []).trans (processMsgs_nil s)⟩

/-- Witness for C10 at a concrete non-DONE message. -/
theorem non_done_msg_is_noop_witness :
    processMsgs { multi := [2], callbacks := [(2, 7)] }
        [{ kind := .other, easy_handle := 3 }, { kind := .DONE, easy_handle := 2 }]
      = processMsgs { multi := [2], callbacks := [(2, 7)] }
        [{ kind := .DONE, easy_handle := 2 }] ∧
    processMsgs { multi := [2], callbacks := [(2, 7)] }
        [{ kind := .other, easy_handle := 3 }]
      = .ok ({ multi := [2], callbacks := [(2, 7)] }, []) :=
  non_done_msg_is_noop { multi := [2], callbacks := [(2, 7)] }
    { kind := .other, easy_handle := 3 } [{ kind := .DONE, easy_handle := 2 }]
    (by decide)

/-- Counterexample to C4 as stated: a scheduler with a still-pending
transfer (non-empty handle-to-callback map) is destroyed successfully —
the destructor performs no explicit check and does not reject. -/
theorem dtor_pending_not_rejected :
    ({ multi := [1], callbacks := [(1, 0)] } : SchedulerState).callbacks ≠ [] ∧
    scheduler_dtor { multi := [1], callbacks := [(1, 0)] }
      = .ok [.multiplexer, .globalEngine] :=
  ⟨by decide, rfl⟩

/-- C4 (amended): destroying a scheduler always releases the
multiplexer and the process-wide engine state — in particular with zero
pending transfers this is all engine-owned state — but the destructor
contains no check of the handle-to-callback map: with pending transfers
it proceeds anyway (no rejection) and the pending easy handles are not
among the released resources; "no transfers pending" is an unchecked
caller precondition. -/
theorem dtor_releases_unconditionally (s : SchedulerState) :
    ∃ released, scheduler_dtor s = .ok released ∧
      EngineResource.multiplexer ∈ released ∧
      EngineResource.globalEngine ∈ released ∧
      ∀ h, EngineResource.easyHandle h ∉ released := by
  refine ⟨[.multiplexer, .globalEngine], rfl, by simp, by simp, fun h => by simp⟩
/-- C5: the completion handler registered by `CURL_async_get` reads the
transfer status first, treats any non-success status as a fatal assert
(no retry, no partial delivery), and on success releases the transfer
handle and the response buffer and then invokes `onComplete` with the
buffer contents — exactly once, in that order, and never on a
non-success outcome. -/
theorem completion_handler_contract (code : Int) (buffer : List Char) :
    ((CURL_get_completion code buffer).1.countP isInvoke
      = if code = 200 then 1 else 0) ∧
    (code = 200 →
      CURL_get_completion code buffer =
        ([.readStatus code, .releaseTransfer, .releaseBuffer, .invokeOnComplete buffer],
         .ok ())) ∧
    (code ≠ 200 →
      (CURL_get_completion code buffer).2
          = .error "assert failed: response_code == 200L" ∧
      ∀ d, GetEvent.invokeOnComplete d ∉ (CURL_get_completion code buffer).1) := by
  by_cases hc : code = 200
  · subst hc
    refine ⟨?_, fun _ => by simp [CURL_get_completion], fun hne => absurd rfl hne⟩
    simp [CURL_get_completion, List.countP_cons, isInvoke]
  · refine ⟨?_, fun heq => absurd heq hc, fun _ => ⟨by simp [CURL_get_completion, hc], ?_⟩⟩
    · simp [CURL_get_completion, hc, List.countP_cons, isInvoke]
    · intro d hmem
      rw [CURL_get_completion, if_neg hc] at hmem
      simp at hmem

/-- Witness for C5: a success run (200) produces the four events in
order, a failure run (404) hits the fatal assert and never invokes
`onComplete`. -/
theorem completion_handler_contract_witness :
    ((CURL_get_completion 200 ['o', 'k']).1.countP isInvoke
      = if (200 : Int) = 200 then 1 else 0) ∧
    CURL_get_completion 200 ['o', 'k'] =
      ([.readStatus 200, .releaseTransfer, .releaseBuffer, .invokeOnComplete ['o', 'k']],
       .ok ()) ∧
    ((CURL_get_completion 404 ['o', 'k']).2
        = .error "assert failed: response_code == 200L" ∧
      ∀ d, GetEvent.invokeOnComplete d ∉ (CURL_get_completion 404 ['o', 'k']).1) :=
  ⟨(completion_handler_contract 200 ['o', 'k']).1,
   (completion_handler_contract 200 ['o', 'k']).2.1 rfl,
   (completion_handler_contract 404 ['o', 'k']).2.2 (by decide)⟩

theorem runSink_append_acc :
    ∀ (chunks : List WriteChunk) (acc : List Char),
      (∀ c ∈ chunks, c.data.length = c.size * c.nmemb) →
      runSink acc chunks = acc ++ (chunks.map (fun c => c.data)).flatten := by
  intro chunks
  induction chunks with
  | nil => intro acc _; simp [runSink]
  | cons c rest ih =>
    intro acc hall
    have hc : c.data.length = c.size * c.nmemb := hall c (List.mem_cons_self c rest)
    have htake : c.data.take (c.size * c.nmemb) = c.data := by
      rw [← hc]
      exact List.take_length c.data
    have h1 : runSink acc (c :: rest)
        = runSink (acc ++ c.data.take (c.size * c.nmemb)) rest := rfl
    rw [h1, htake, ih _ (fun d hd => hall d (List.mem_cons_of_mem c hd)),
        List.map_cons, List.flatten_cons, List.append_assoc]

/-- C6: for a completed transfer, the buffer handed to the completion
callback equals the ordered concatenation of every chunk the data sink
received — each sink invocation appends its `size * nmemb` bytes to the
accumulator and reports all bytes consumed, and on success the handler
hands the accumulated buffer to `onComplete` exactly once. -/
theorem buffer_is_ordered_chunk_concat (chunks : List WriteChunk)
    (hlen : ∀ c ∈ chunks, c.data.length = c.size * c.nmemb) :
    runSink [] chunks = (chunks.map (fun c => c.data)).flatten ∧
    (∀ c ∈ chunks, ∀ r : List Char,
      (CURL_OnWriteCallback c.data c.size c.nmemb r).2 = c.size * c.nmemb) ∧
    CURL_get_completion 200 (runSink [] chunks) =
      ([.readStatus 200, .releaseTransfer, .releaseBuffer,
        .invokeOnComplete ((chunks.map (fun c => c.data)).flatten)], .ok ()) := by
  have h0 : runSink [] chunks = (chunks.map (fun c => c.data)).flatten := by
    simpa using runSink_append_acc chunks [] hlen
  refine ⟨h0, fun c _ r => rfl, ?_⟩
  rw [h0]
  simp [CURL_get_completion]

/-- Witness for C6: two chunks, sizes matching their byte counts,
concatenated in order and handed over once. -/
theorem buffer_is_ordered_chunk_concat_witness :
    runSink [] [{ data := ['h', 'i'], size := 1, nmemb := 2 },
                { data := ['!'], size := 1, nmemb := 1 }] = ['h', 'i', '!'] ∧
    (∀ c ∈ [({ data := ['h', 'i'], size := 1, nmemb := 2 } : WriteChunk),
            { data := ['!'], size := 1, nmemb := 1 }], ∀ r : List Char,
      (CURL_OnWriteCallback c.data c.size c.nmemb r).2 = c.size * c.nmemb) ∧
    CURL_get_completion 200 (runSink []
        [{ data := ['h', 'i'], size := 1, nmemb := 2 },
         { data := ['!'], size := 1, nmemb := 1 }]) =
      ([.readStatus 200, .releaseTransfer, .releaseBuffer,
        .invokeOnComplete ['h', 'i', '!']], .ok ()) :=
  buffer_is_ordered_chunk_concat
    [{ data := ['h', 'i'], size := 1, nmemb := 2 },
     { data := ['!'], size := 1, nmemb := 1 }] (by decide)
theorem resumeN_run (segs : List (List Nat)) :
    ∀ (k pos : Nat), pos + k ≤ segs.length →
      resumeN { coro := some { segments := segs, pos := pos } } k
        = .ok ({ coro := some { segments := segs, pos := pos + k } },
               ((segs.drop pos).take k).flatten) := by
  intro k
  induction k with
  | zero =>
    intro pos _
    simp [resumeN]
  | succ n ih =>
    intro pos hle
    have hlt : pos < segs.length := by omega
    have hres : Co_Task.resume { coro := some { segments := segs, pos := pos } }
        = .ok ({ coro := some { segments := segs, pos := pos + 1 } },
               segs.getD pos []) := by
      simp [Co_Task.resume, CoHandle.done, Nat.not_le.mpr hlt]
    have hrec := ih (pos + 1) (by omega)
    have harith : pos + 1 + n = pos + (n + 1) := by omega
    rw [harith] at hrec
    have hunfold : resumeN { coro := some { segments := segs, pos := pos } } (n + 1)
        = match Co_Task.resume { coro := some { segments := segs, pos := pos } } with
          | .error e => .error e
          | .ok (t1, evs1) =>
            match resumeN t1 n with
            | .error e => .error e
            | .ok (t2, evs2) => .ok (t2, evs1 ++ evs2) := rfl
    rw [hunfold]
    simp only [hres, hrec]
    have hdrop : segs.drop pos = segs[pos] :: segs.drop (pos + 1) :=
      List.drop_eq_getElem_cons hlt
    have hgetD : segs.getD pos [] = segs[pos] := List.getD_eq_getElem segs [] hlt
    rw [hdrop, List.take_succ_cons, List.flatten_cons, hgetD]

/-- C7: with `initial_suspend` returning `suspend_always`, creating a
task executes no body statement; after `k` resumes exactly the first
`k` segments of the body have run (so nothing runs before the first
`resume()`), and `is_in_progress` reports `true` exactly while segments
remain, becoming `false` once the body has run to its end. -/
theorem task_runs_only_via_resume (segs : List (List Nat)) (k : Nat)
    (hk : k ≤ segs.length) :
    (coro_create segs).2 = [] ∧
    resumeN (coro_create segs).1 k
      = .ok ({ coro := some { segments := segs, pos := k } }, (segs.take k).flatten) ∧
    Co_Task.is_in_progress { coro := some { segments := segs, pos := k } }
      = .ok (decide (k < segs.length)) := by
  refine ⟨rfl, ?_, ?_⟩
  · have h1 : (coro_create segs).1 = { coro := some { segments := segs, pos := 0 } } := rfl
    rw [h1]
    have := resumeN_run segs k 0 (by omega)
    simpa using this
  · by_cases hlt : k < segs.length
    · simp [Co_Task.is_in_progress, CoHandle.done, hlt, Nat.not_le.mpr hlt]
    · have hge : segs.length ≤ k := Nat.le_of_not_lt hlt
      simp [Co_Task.is_in_progress, CoHandle.done, hlt, hge]

/-- Witness for C7: a two-segment body run to completion. -/
theorem task_runs_only_via_resume_witness :
    (coro_create [[1, 2], [3]]).2 = [] ∧
    resumeN (coro_create [[1, 2], [3]]).1 2
      = .ok ({ coro := some { segments := [[1, 2], [3]], pos := 2 } }, [1, 2, 3]) ∧
    Co_Task.is_in_progress { coro := some { segments := [[1, 2], [3]], pos := 2 } }
      = .ok (decide (2 < ([[1, 2], [3]] : List (List Nat)).length)) :=
  task_runs_only_via_resume [[1, 2], [3]] 2 (by decide)

/-- C8: calling `resume()` on a task whose body already ran to
completion hits the always-active `assert` inside `resume` — a
contract-violation failure, not an execution of the finished
coroutine. -/
theorem resume_after_done_rejected (t : Co_Task) (h : CoHandle)
    (hc : t.coro = some h) (hdone : h.segments.length ≤ h.pos) :
    t.resume = .error "assert failed: !_coro.done()" := by
  simp [Co_Task.resume, hc, CoHandle.done, hdone]

/-- Witness for C8: a one-segment task already past its body. -/
theorem resume_after_done_rejected_witness :
    Co_Task.resume { coro := some { segments := [[0]], pos := 1 } }
      = .error "assert failed: !_coro.done()" :=
  resume_after_done_rejected { coro := some { segments := [[0]], pos := 1 } }
    { segments := [[0]], pos := 1 } rfl (by decide)

/-- C9: a task exclusively owns its continuation: move construction
hands the frame to the new task and leaves the source empty, destroying
the moved-from task destroys no frame (no double-destroy), and
destroying a task holding a live (hence possibly non-Done) frame
destroys that frame while running none of the remaining body
statements (the rest of the computation is discarded). -/
theorem task_exclusive_ownership (t : Co_Task) (h : CoHandle) (hc : t.coro = some h) :
    (t.moveCtor).1.coro = some h ∧
    (t.moveCtor).2.coro = none ∧
    Co_Task.dtor (t.moveCtor).2 = { destroyedFrame := false, executed := [] } ∧
    Co_Task.dtor (t.moveCtor).1 = { destroyedFrame := true, executed := [] } := by
  refine ⟨by simp [Co_Task.moveCtor, hc], rfl, rfl, ?_⟩
  simp [Co_Task.moveCtor, Co_Task.dtor, hc]

/-- Witness for C9: moving and destroying a task suspended mid-body. -/
theorem task_exclusive_ownership_witness :
    (Co_Task.moveCtor { coro := some { segments := [[4], [5]], pos := 1 } }).1.coro
        = some { segments := [[4], [5]], pos := 1 } ∧
    (Co_Task.moveCtor { coro := some { segments := [[4], [5]], pos := 1 } }).2.coro
        = none ∧
    Co_Task.dtor (Co_Task.moveCtor
        { coro := some { segments := [[4], [5]], pos := 1 } }).2
      = { destroyedFrame := false, executed := [] } ∧
    Co_Task.dtor (Co_Task.moveCtor
        { coro := some { segments := [[4], [5]], pos := 1 } }).1
      = { destroyedFrame := true, executed := [] } :=
  task_exclusive_ownership { coro := some { segments := [[4], [5]], pos := 1 } }
    { segments := [[4], [5]], pos := 1 } rfl

/-- C3: for every url and fixed mocked backend response (delivered with
success status), the bytes a `co_await` on the awaiter yields — suspend,
start a `CURL_async_get` whose completion stores the result and resumes
the captured task, then `await_resume` — are exactly the bytes a
directly-registered `CURL_async_get` callback receives for the same
url: the coroutine-await path and the plain-callback path deliver the
same response. -/
theorem await_path_equals_callback_path (eng : MockEngine) (url : String)
    (task : Co_Task) (h : CoHandle)
    (hstatus : eng.statusOf url = 200)
    (hc : task.coro = some h) (hlive : h.pos < h.segments.length) :
    ∃ b task1, await_cycle eng url task = .ok (b, task1) ∧
      getAsync_deliver eng url = .ok { response := b, done := true } := by
  refine ⟨runSink [] (eng.chunks url), { coro := some { h with pos := h.pos + 1 } },
    ?_, ?_⟩
  · simp [await_cycle, CURL_await_get, Co_CurlAsync.await_ready,
      Co_CurlAsync.await_resume, CURL_async_get_run, CURL_get_completion,
      awaiter_on_complete, hstatus, Co_Task.resume, CoHandle.done,
      Nat.not_le.mpr hlive, hc]
  · simp [getAsync_deliver, CURL_async_get_run, CURL_get_completion, hstatus,
      main_on_complete]

/-- Witness for C3: a backend answering every url with status 200 and
body bytes given in one chunk; the task is suspended mid-body at its
await point. -/
theorem await_path_equals_callback_path_witness :
    ∃ b task1,
      await_cycle
          { chunks := fun _ => [{ data := ['h', 'i'], size := 2, nmemb := 1 }],
            statusOf := fun _ => 200 } "localhost:5001/file1.txt"
          { coro := some { segments := [[1], [2]], pos := 1 } } = .ok (b, task1) ∧
      getAsync_deliver
          { chunks := fun _ => [{ data := ['h', 'i'], size := 2, nmemb := 1 }],
            statusOf := fun _ => 200 } "localhost:5001/file1.txt"
        = .ok { response := b, done := true } :=
  await_path_equals_callback_path
    { chunks := fun _ => [{ data := ['h', 'i'], size := 2, nmemb := 1 }],
      statusOf := fun _ => 200 } "localhost:5001/file1.txt"
    { coro := some { segments := [[1], [2]], pos := 1 } }
    { segments := [[1], [2]], pos := 1 } rfl rfl (by decide)

end AsyncApi
